import Mathlib

/-!
Verification of `apps/pig/src/pig/models.py` (Hue pig app).

Shallow embedding conventions:
* JSON values are modelled by the inductive type `JsonVal`; a Python `dict`
  (which preserves insertion order, assigns by overwriting the binding in
  place, and appends new keys at the end) is modelled by an ordered
  association list `JsonObj` with `dictGet` / `dictSet` implementing
  `d.get(k)` / `d[k] = v`.
* The stored blob `PigScript.data` is a JSON string in the source; since
  `json.dumps` is deterministic and injective on decoded objects (it follows
  the dict's key order), we represent the blob directly by its decoded
  ordered object, so blob equality (byte for byte) is `JsonObj` equality and
  the `dict` property is the identity.
* The Django ORM is modelled by a list of rows (`Db`); `objects.get(id=..)`
  is a lookup by id, `objects.create` appends a fresh row.  Django model
  equality (`self.owner == user`) compares primary keys.
* Exceptions are modelled with `Except`; a bare `except:` corresponds to
  handling the `.error` case.
-/

namespace Pig

/-- A JSON value, as produced by `json.loads`. -/
inductive JsonVal where
  | null
  | bool (b : Bool)
  | num (n : Int)
  | str (s : String)
  | arr (elems : List JsonVal)
  | obj (fields : List (String × JsonVal))

/-- Python `x is None`: is this JSON value the `null` (Python `None`) value? -/
def JsonVal.isNull : JsonVal → Bool
  | .null => true
  | _ => false

/-- A decoded JSON object: an ordered association list, like a Python dict. -/
abbrev JsonObj := List (String × JsonVal)

/-- Python `d.get(k)`: the value of the first (unique, in a real dict)
binding of `k`, or `None` when absent. -/
def dictGet : JsonObj → String → Option JsonVal
  | [], _ => none
  | (k, v) :: rest, key => if k = key then some v else dictGet rest key

/-- Python `d[k] = v`: overwrite the binding of `k` in place if present
(keeping its position), otherwise append it at the end. -/
def dictSet : JsonObj → String → JsonVal → JsonObj
  | [], key, v => [(key, v)]
  | (k, w) :: rest, key, v =>
      if k = key then (key, v) :: rest else (k, w) :: dictSet rest key v

/-- The fixed update whitelist `PigScript._ATTRIBUTES`. -/
def ATTRIBUTES : List String :=
  ["script", "name", "properties", "job_id", "parameters", "resources"]

/-- One iteration of the loop in `update_from_dict`:
`if attrs.get(attr) is not None: data_dict[attr] = attrs[attr]`. -/
def applyAttr (attrs : JsonObj) (d : JsonObj) (attr : String) : JsonObj :=
  match dictGet attrs attr with
  | some v => if v.isNull then d else dictSet d attr v
  | none => d

/-- Embeds `PigScript.update_from_dict(attrs)` acting on the decoded blob: for each
whitelist attribute supplied with a non-null value, overwrite it, then
re-serialize (`self.data = json.dumps(data_dict)`). -/
def update_from_dict (data attrs : JsonObj) : JsonObj :=
  ATTRIBUTES.foldl (applyAttr attrs) data

/-- Does `attrs` supply a non-null value for `k` (`attrs.get(k) is not None`)? -/
def suppliesNonNull (attrs : JsonObj) (k : String) : Bool :=
  match dictGet attrs k with
  | some v => !v.isNull
  | none => false

/-- The collaborating `django.contrib.auth.models.User` identity: primary key,
display name (`str(user)` is the username) and the superuser flag. -/
structure User where
  pk : Nat
  username : String
  is_superuser : Bool
deriving DecidableEq

/-- The `Document` model base: `owner` (Django stores the foreign key; model
equality compares primary keys) and `is_design`. -/
structure Document where
  owner : User
  is_design : Bool
deriving DecidableEq

/-- Embeds `Document.is_editable(user)`:
`user.is_superuser or self.owner == user` (Django model equality is primary
key equality). -/
def is_editable (d : Document) (u : User) : Bool :=
  u.is_superuser || d.owner.pk == u.pk

/-- The localized message `_('Only superusers and %s are allowed to modify
this document.') % user` (the `%s` renders the requesting user). -/
def editDeniedMessage (u : User) : String :=
  "Only superusers and " ++ u.username ++ " are allowed to modify this document."

/-- Embeds `Document.can_edit_or_exception(user, exception_class)`: returns `True`
when editable, otherwise raises `exception_class(message)` (default
`PopupException`); `ε` abstracts the exception class, `exception_class`
its constructor from a message. -/
def can_edit_or_exception {ε : Type} (d : Document) (u : User)
    (exception_class : String → ε) : Except ε Bool :=
  if is_editable d u then Except.ok true
  else Except.error (exception_class (editDeniedMessage u))

/-- The default blob of `PigScript.data`, decoded:
`{'script': '', 'name': '', 'properties': [], 'job_id': None,
'parameters': [], 'resources': []}`. -/
def defaultData : JsonObj :=
  [("script", JsonVal.str ""), ("name", JsonVal.str ""),
   ("properties", JsonVal.arr []), ("job_id", JsonVal.null),
   ("parameters", JsonVal.arr []), ("resources", JsonVal.arr [])]

/-- A `PigScript` row: the inherited `Document` fields, the ORM-assigned
primary key `id`, and the `data` blob (stored decoded, see the header). -/
structure PigScript extends Document where
  id : Nat
  data : JsonObj

/-- The persisted table of `PigScript` rows. -/
abbrev Db := List PigScript

/-- Embeds `PigScript.objects.get(id=id)`: `none` models `DoesNotExist` (also for
`id=None`); assumes unique ids, as the ORM guarantees. -/
def objectsGet (db : Db) (id : Option Nat) : Option PigScript :=
  match id with
  | none => none
  | some i => db.find? (fun s => s.id == i)

/-- The next auto-increment primary key. -/
def nextId (db : Db) : Nat :=
  db.foldl (fun m s => max m s.id) 0 + 1

/-- Embeds `PigScript.objects.create(owner=user, is_design=is_design)`: persists and
returns a fresh row with the default blob. -/
def objectsCreate (db : Db) (owner : User) (is_design : Bool) :
    PigScript × Db :=
  let r : PigScript :=
    { owner := owner, is_design := is_design, id := nextId db,
      data := defaultData }
  (r, db ++ [r])

/-- The lookup-or-create step of `create_or_update_script`: `try` to get the
row by id and authorize; any failure (`except:`) falls back to
`objects.create(owner=user, is_design=is_design)`. -/
def cosBase (db : Db) (id : Option Nat) (user : User) (is_design : Bool) :
    PigScript × Db :=
  match objectsGet db id with
  | some r =>
      if is_editable r.toDocument user then (r, db)
      else objectsCreate db user is_design
  | none => objectsCreate db user is_design

/-- Embeds `create_or_update_script(id, name, script, user, parameters, resources,
is_design=True)`: lookup-or-create, then `update_from_dict` with the four
supplied attributes (in memory: the function never calls `save()`, so the
table keeps the row as looked up or created).  Returns the record and the
resulting table. -/
def create_or_update_script (db : Db) (id : Option Nat)
    (name script : JsonVal) (user : User) (parameters resources : JsonVal)
    (is_design : Bool) : PigScript × Db :=
  let base := cosBase db id user is_design
  let pig_script := base.1
  ({ pig_script with
      data := update_from_dict pig_script.data
        [("name", name), ("script", script),
         ("parameters", parameters), ("resources", resources)] },
   base.2)

/-- The projection built by the loop body of `get_scripts`. -/
structure MassagedScript where
  id : Nat
  name : JsonVal
  script : JsonVal
  parameters : JsonVal
  resources : JsonVal
  isDesign : Bool

/-- One loop iteration of `get_scripts`: `data = script.dict` followed by the
literal `massaged_script` dict; `data['name']` etc. raise `KeyError` when
absent, modelled by `none`. -/
def massage (s : PigScript) : Option MassagedScript :=
  match dictGet s.data "name", dictGet s.data "script",
        dictGet s.data "parameters", dictGet s.data "resources" with
  | some n, some sc, some p, some r =>
      some { id := s.id, name := n, script := sc, parameters := p,
             resources := r, isDesign := s.is_design }
  | _, _, _, _ => none

/-- The whole `for` loop of `get_scripts` (appending one projection per row;
a `KeyError` anywhere aborts the call). -/
def massageList : List PigScript → Option (List MassagedScript)
  | [] => some []
  | s :: rest =>
      match massage s, massageList rest with
      | some m, some ms => some (m :: ms)
      | _, _ => none

/-- The filter `owner__pk__in=[user.pk, 1100713]` (the hardcoded shared
sample-owner id). -/
def ownerMatch (u : User) (s : PigScript) : Bool :=
  s.owner.pk == u.pk || s.owner.pk == 1100713

/-- The ordering `order_by('-id')`: descending primary key. -/
def byIdDesc : PigScript → PigScript → Prop := fun a b => b.id ≤ a.id

instance : DecidableRel byIdDesc := fun a b => Nat.decLe b.id a.id

instance : IsTotal PigScript byIdDesc :=
  ⟨fun a b => Nat.le_total b.id a.id⟩

instance : IsTrans PigScript byIdDesc :=
  ⟨fun _ _ _ h1 h2 => Nat.le_trans h2 h1⟩

/-- Embeds `get_scripts(user, max_count=200)`: filter by owner, order by `-id`,
truncate to `max_count`, and project every row. -/
def get_scripts (db : Db) (user : User) (max_count : Nat) :
    Option (List MassagedScript) :=
  massageList ((List.insertionSort byIdDesc (db.filter (ownerMatch user))).take max_count)

/-- Python `d.get(k)` on a string-valued configuration dict. -/
def lookupStr : List (String × String) → String → Option String
  | [], _ => none
  | (k, v) :: rest, key => if k = key then some v else lookupStr rest key

/-- Embeds `get_workflow_output(oozie_workflow, fs)`: `oozie_workflow` contributes
only its `conf_dict` mapping, `fs` only its `exists` test (modelled total:
the source calls it unguarded). -/
def get_workflow_output (conf_dict : List (String × String))
    (fs_exists : String → Bool) : Option String :=
  match lookupStr conf_dict "workflowRoot" with
  | none => none
  | some output =>
      if output != "" && !fs_exists output then none else some output

/-- Split a character list at the first occurrence of `://`, returning the
parts before and after it, or nothing when absent. -/
def splitScheme : List Char → Option (List Char × List Char)
  | [] => none
  | ':' :: '/' :: '/' :: rest => some ([], rest)
  | c :: rest => (splitScheme rest).map (fun p => (c :: p.1, p.2))

/-- Modelled from the spec: `Hdfs.urlsplit` (from `hadoop.fs.hadoopfs`, not
under src/) is "a URL-splitting function returning a 3-tuple whose third
element is the path": for `scheme://host/abs/path` the path component is
`/abs/path`, for `scheme://host` it is empty, and an input with no
`://` separator is all path (hence relative unless it starts with `/`). -/
def urlsplit (url : String) : String × String × String :=
  match splitScheme url.data with
  | none => ("", "", url)
  | some (scheme, rest) =>
      (String.mk scheme,
       String.mk (rest.takeWhile (fun c => c ≠ '/')),
       String.mk (rest.dropWhile (fun c => c ≠ '/')))

/-- Python `path.startswith(posixpath.sep)` for the one-character separator
`/`: does the first character exist and equal `/`? -/
def startsWithSep (path : String) : Bool :=
  match path.data with
  | '/' :: _ => true
  | _ => false

/-- Embeds `hdfs_link(url)`: falsy input (`None` or empty) passes through, else the
path component of the split URL decides the filebrowser link
(`posixpath.sep` is `/`). -/
def hdfs_link : Option String → Option String
  | none => none
  | some url =>
      if url = "" then some url
      else
        let path := (urlsplit url).2.2
        if path ≠ "" then
          if startsWithSep path then some ("/filebrowser/view" ++ path)
          else some ("/filebrowser/home_relative_view/" ++ path)
        else some url

/-! ### Sample inputs for concrete instantiations -/

/-- A sample non-superuser. -/
def user1 : User := { pk := 1, username := "alice", is_superuser := false }

/-- Another sample non-superuser. -/
def user2 : User := { pk := 2, username := "bob", is_superuser := false }

/-- A sample persisted row owned by `user1`. -/
def row1 : PigScript :=
  { owner := user1, is_design := true, id := 5, data := defaultData }

/-- A sample one-row table. -/
def db1 : Db := [row1]

/-! ### Dictionary lemmas -/

theorem dictGet_dictSet_self (d : JsonObj) (k : String) (v : JsonVal) :
    dictGet (dictSet d k v) k = some v := by
  induction d with
  | nil => simp [dictGet, dictSet]
  | cons p rest ih =>
      by_cases h : p.1 = k
      · simp [dictGet, dictSet, h]
      · simp [dictGet, dictSet, h, ih]

theorem dictGet_dictSet_ne (d : JsonObj) (k key : String) (v : JsonVal)
    (h : key ≠ k) : dictGet (dictSet d k v) key = dictGet d key := by
  have h2 : ¬(k = key) := fun e => h e.symm
  induction d with
  | nil => simp [dictGet, dictSet, h2]
  | cons p rest ih =>
      by_cases hp : p.1 = k
      · simp [dictGet, dictSet, hp, h2]
      · simp [dictGet, dictSet, hp, ih]

theorem dictSet_eq_self_of_get (d : JsonObj) (k : String) (v : JsonVal)
    (h : dictGet d k = some v) : dictSet d k v = d := by
  induction d with
  | nil => simp [dictGet] at h
  | cons p rest ih =>
      by_cases hp : p.1 = k
      · obtain ⟨k1, v1⟩ := p
        simp only at hp
        subst hp
        simp [dictGet] at h
        simp [dictSet, h]
      · simp [dictGet, hp] at h
        simp [dictSet, hp, ih h]

theorem applyAttr_get_self (attrs d : JsonObj) (k : String) :
    dictGet (applyAttr attrs d k) k =
      if suppliesNonNull attrs k then dictGet attrs k else dictGet d k := by
  cases hv : dictGet attrs k with
  | none => simp [applyAttr, suppliesNonNull, hv]
  | some v =>
      cases hn : v.isNull with
      | true => simp [applyAttr, suppliesNonNull, hv, hn]
      | false =>
          simp [applyAttr, suppliesNonNull, hv, hn, dictGet_dictSet_self]

theorem applyAttr_get_ne (attrs d : JsonObj) (k attr : String)
    (h : k ≠ attr) : dictGet (applyAttr attrs d attr) k = dictGet d k := by
  cases hv : dictGet attrs attr with
  | none => simp [applyAttr, hv]
  | some v =>
      cases hn : v.isNull with
      | true => simp [applyAttr, hv, hn]
      | false => simp [applyAttr, hv, hn, dictGet_dictSet_ne _ _ _ _ h]

theorem foldl_applyAttr_get_not_mem (attrs : JsonObj) (ks : List String)
    (d : JsonObj) (k : String) (h : k ∉ ks) :
    dictGet (ks.foldl (applyAttr attrs) d) k = dictGet d k := by
  induction ks generalizing d with
  | nil => rfl
  | cons a ks ih =>
      simp only [List.mem_cons, not_or] at h
      rw [List.foldl_cons, ih _ h.2, applyAttr_get_ne _ _ _ _ h.1]

theorem foldl_applyAttr_get (attrs : JsonObj) (ks : List String)
    (d : JsonObj) (k : String) :
    dictGet (ks.foldl (applyAttr attrs) d) k =
      if k ∈ ks ∧ suppliesNonNull attrs k = true then dictGet attrs k
      else dictGet d k := by
  induction ks generalizing d with
  | nil => simp
  | cons a ks ih =>
      rw [List.foldl_cons, ih]
      by_cases hks : k ∈ ks ∧ suppliesNonNull attrs k = true
      · rw [if_pos hks, if_pos ⟨List.mem_cons_of_mem a hks.1, hks.2⟩]
      · rw [if_neg hks]
        by_cases hka : k = a
        · subst hka
          rw [applyAttr_get_self]
          by_cases hs : suppliesNonNull attrs k = true
          · rw [if_pos hs, if_pos ⟨List.mem_cons_self k ks, hs⟩]
          · rw [if_neg (by simpa using hs),
              if_neg (fun hc => hs hc.2)]
        · rw [applyAttr_get_ne _ _ _ _ hka,
            if_neg (fun hc => hks ⟨(List.mem_cons.mp hc.1).resolve_left hka, hc.2⟩)]

theorem foldl_applyAttr_idem (attrs : JsonObj) (ks : List String)
    (d : JsonObj) (hnd : ks.Nodup) :
    ks.foldl (applyAttr attrs) (ks.foldl (applyAttr attrs) d) =
      ks.foldl (applyAttr attrs) d := by
  induction ks generalizing d with
  | nil => rfl
  | cons a ks ih =>
      obtain ⟨ha, hnd'⟩ := List.nodup_cons.mp hnd
      simp only [List.foldl_cons]
      have hfix :
          applyAttr attrs (ks.foldl (applyAttr attrs) (applyAttr attrs d a)) a
            = ks.foldl (applyAttr attrs) (applyAttr attrs d a) := by
        cases hv : dictGet attrs a with
        | none => simp [applyAttr, hv]
        | some v =>
            cases hn : v.isNull with
            | true => simp [applyAttr, hv, hn]
            | false =>
                have hget :
                    dictGet (ks.foldl (applyAttr attrs) (applyAttr attrs d a)) a
                      = some v := by
                  rw [foldl_applyAttr_get_not_mem _ _ _ _ ha]
                  simp [applyAttr, hv, hn, dictGet_dictSet_self]
                have hget2 :
                    dictGet (ks.foldl (applyAttr attrs) (dictSet d a v)) a
                      = some v := by
                  simpa [applyAttr, hv, hn] using hget
                simp [applyAttr, hv, hn, dictSet_eq_self_of_get _ _ _ hget2]
      rw [hfix, ih _ hnd']

/-! ### Claim C1 -/

/-- C1: for every stored blob (decoded mapping) and attribute mapping,
`update_from_dict(attrs)` followed by reading `dict` yields the prior
mapping with exactly the whitelist keys for which `attrs` supplies a
non-null value overwritten by that value, and every other key — whitelisted
or not — unchanged. -/
theorem update_from_dict_pointwise (d attrs : JsonObj) (k : String) :
    dictGet (update_from_dict d attrs) k =
      if k ∈ ATTRIBUTES ∧ suppliesNonNull attrs k = true then dictGet attrs k
      else dictGet d k :=
  foldl_applyAttr_get attrs ATTRIBUTES d k

/-! ### Claim C7 -/

/-- C7: applying the same `update_from_dict(attrs)` twice yields the same
stored blob (blob equality is equality of the decoded ordered object, since
`json.dumps` is injective on those) as applying it once. -/
theorem update_from_dict_idem (d attrs : JsonObj) :
    update_from_dict (update_from_dict d attrs) attrs =
      update_from_dict d attrs :=
  foldl_applyAttr_idem attrs ATTRIBUTES d (by decide)

/-! ### Claim C2 -/

/-- C2: when the id is absent, identifies no record, or identifies a record
the calling user may not edit, `create_or_update_script` creates a brand-new
row owned by the caller with the given `is_design` flag (default blob, fresh
id, appended to the table), and every pre-existing row — in particular a
forbidden record and its `data` field — is unchanged in the resulting
table. -/
theorem create_or_update_script_fallback (db : Db) (id : Option Nat)
    (name script : JsonVal) (user : User) (parameters resources : JsonVal)
    (is_design : Bool)
    (h : objectsGet db id = none ∨
      ∃ r, objectsGet db id = some r ∧ is_editable r.toDocument user = false) :
    (create_or_update_script db id name script user parameters resources
        is_design).2 =
      db ++ [{ owner := user, is_design := is_design, id := nextId db,
               data := defaultData }] ∧
    (create_or_update_script db id name script user parameters resources
        is_design).1.owner = user ∧
    (create_or_update_script db id name script user parameters resources
        is_design).1.is_design = is_design ∧
    (create_or_update_script db id name script user parameters resources
        is_design).1.id = nextId db ∧
    ∀ r ∈ db, r ∈ (create_or_update_script db id name script user parameters
        resources is_design).2 := by
  have hbase : cosBase db id user is_design =
      ({ owner := user, is_design := is_design, id := nextId db,
         data := defaultData },
       db ++ [{ owner := user, is_design := is_design, id := nextId db,
                data := defaultData }]) := by
    rcases h with hn | ⟨r, hr, hed⟩
    · simp [cosBase, hn, objectsCreate]
    · simp [cosBase, hr, hed, objectsCreate]
  refine ⟨?_, ?_, ?_, ?_, ?_⟩ <;>
    simp [create_or_update_script, hbase]
  exact fun r hr => Or.inl hr

/-- Witness for C2: a forbidden concrete lookup (row owned by `user1`, caller
`user2`, neither a superuser) falls back to creating a fresh row. -/
theorem create_or_update_script_fallback_witness :
    (create_or_update_script db1 (some 5) (JsonVal.str "n") (JsonVal.str "s")
        user2 (JsonVal.arr []) (JsonVal.arr []) true).2 =
      db1 ++ [{ owner := user2, is_design := true, id := nextId db1,
                data := defaultData }] :=
  (create_or_update_script_fallback db1 (some 5) (JsonVal.str "n")
    (JsonVal.str "s") user2 (JsonVal.arr []) (JsonVal.arr []) true
    (Or.inr ⟨row1, rfl, rfl⟩)).1

/-! ### Claim C3 -/

/-- C3 (amended): every call returns a record whose decoded blob carries the
given `name`, `script`, `parameters`, `resources` whenever they are non-null,
with the base record's `job_id` and `properties` entries untouched; the
updated blob lives only on the returned record — the table keeps the row as
looked up or created (the source never calls `save()` here), so persisting
the update is the caller's job. -/
theorem create_or_update_script_result (db : Db) (id : Option Nat)
    (name script : JsonVal) (user : User) (parameters resources : JsonVal)
    (is_design : Bool) :
    (name.isNull = false →
      dictGet (create_or_update_script db id name script user parameters
        resources is_design).1.data "name" = some name) ∧
    (script.isNull = false →
      dictGet (create_or_update_script db id name script user parameters
        resources is_design).1.data "script" = some script) ∧
    (parameters.isNull = false →
      dictGet (create_or_update_script db id name script user parameters
        resources is_design).1.data "parameters" = some parameters) ∧
    (resources.isNull = false →
      dictGet (create_or_update_script db id name script user parameters
        resources is_design).1.data "resources" = some resources) ∧
    dictGet (create_or_update_script db id name script user parameters
        resources is_design).1.data "job_id" =
      dictGet (cosBase db id user is_design).1.data "job_id" ∧
    dictGet (create_or_update_script db id name script user parameters
        resources is_design).1.data "properties" =
      dictGet (cosBase db id user is_design).1.data "properties" ∧
    (create_or_update_script db id name script user parameters resources
        is_design).1.id = (cosBase db id user is_design).1.id ∧
    (create_or_update_script db id name script user parameters resources
        is_design).1.owner = (cosBase db id user is_design).1.owner ∧
    (create_or_update_script db id name script user parameters resources
        is_design).2 = (cosBase db id user is_design).2 := by
  refine ⟨?_, ?_, ?_, ?_, ?_, ?_, rfl, rfl, rfl⟩ <;>
    simp only [create_or_update_script, update_from_dict,
      foldl_applyAttr_get]
  · intro h
    simp [ATTRIBUTES, suppliesNonNull, dictGet, h]
  · intro h
    simp [ATTRIBUTES, suppliesNonNull, dictGet, h]
  · intro h
    simp [ATTRIBUTES, suppliesNonNull, dictGet, h]
  · intro h
    simp [ATTRIBUTES, suppliesNonNull, dictGet, h]
  · simp [ATTRIBUTES, suppliesNonNull, dictGet]
  · simp [ATTRIBUTES, suppliesNonNull, dictGet]

/-- Witness for C3 (amended): concrete call on the empty table. -/
theorem create_or_update_script_result_witness :
    dictGet (create_or_update_script [] none (JsonVal.str "n")
        (JsonVal.str "s") user1 (JsonVal.arr []) (JsonVal.arr [])
        true).1.data "name" = some (JsonVal.str "n") :=
  (create_or_update_script_result [] none (JsonVal.str "n") (JsonVal.str "s")
    user1 (JsonVal.arr []) (JsonVal.arr []) true).1 rfl

/-- Counterexample for C3 as stated: after a concrete call, no row of the
resulting table carries the returned record's updated blob — the record is
not "returned already persisted" (the new row is stored with the default
blob while only the returned object holds the update). -/
theorem create_or_update_script_not_persisted :
    ¬ ∃ r ∈ (create_or_update_script [] none (JsonVal.str "n")
        (JsonVal.str "s") user1 (JsonVal.arr []) (JsonVal.arr []) true).2,
      r.id = (create_or_update_script [] none (JsonVal.str "n")
        (JsonVal.str "s") user1 (JsonVal.arr []) (JsonVal.arr [])
        true).1.id ∧
      r.data = (create_or_update_script [] none (JsonVal.str "n")
        (JsonVal.str "s") user1 (JsonVal.arr []) (JsonVal.arr [])
        true).1.data := by
  intro hex
  obtain ⟨r, hr, hid, hdata⟩ := hex
  have hmem : r = { owner := user1, is_design := true, id := 1,
                    data := defaultData } := by
    simpa [create_or_update_script, cosBase, objectsGet, objectsCreate,
      nextId] using hr
  subst hmem
  have hname := congrArg (fun o => dictGet o "name") hdata
  simp [create_or_update_script, cosBase, objectsGet, objectsCreate,
    update_from_dict, applyAttr, dictGet, dictSet, defaultData,
    ATTRIBUTES, JsonVal.isNull] at hname

/-! ### Claim C8 -/

/-- C8: `is_editable(user)` holds iff the user is a superuser or is the
document's owner (user identity being primary-key identity, as Django model
equality compares primary keys); it is a pure Boolean predicate. -/
theorem is_editable_iff (d : Document) (u : User) :
    is_editable d u = true ↔ (u.is_superuser = true ∨ d.owner.pk = u.pk) := by
  simp [is_editable]

/-! ### Claim C9 -/

/-- C9: `can_edit_or_exception(user, exception_class)` returns `True` exactly
when `is_editable(user)` holds, and otherwise raises the given exception
class applied to the localized permission message; being a pure `Except`
value, it has no side effect beyond the raise and the document is
untouched. -/
theorem can_edit_or_exception_spec {ε : Type} (d : Document) (u : User)
    (exception_class : String → ε) :
    (can_edit_or_exception d u exception_class = Except.ok true ↔
      is_editable d u = true) ∧
    (is_editable d u = false →
      can_edit_or_exception d u exception_class =
        Except.error (exception_class (editDeniedMessage u))) := by
  by_cases he : is_editable d u <;>
    simp [can_edit_or_exception, he]

/-- Witness for C9: the concrete forbidden case raises the exception built
from the localized message. -/
theorem can_edit_or_exception_spec_witness :
    can_edit_or_exception row1.toDocument user2 (fun s => s) =
      Except.error (editDeniedMessage user2) :=
  (can_edit_or_exception_spec row1.toDocument user2 (fun s => s)).2 rfl

/-! ### `get_scripts` helper lemmas -/

theorem massage_id {s : PigScript} {m : MassagedScript}
    (h : massage s = some m) : m.id = s.id := by
  unfold massage at h
  split at h
  · cases h
    rfl
  · cases h

theorem massageList_length {l : List PigScript} {out : List MassagedScript}
    (h : massageList l = some out) : out.length = l.length := by
  induction l generalizing out with
  | nil =>
      simp [massageList] at h
      subst h
      rfl
  | cons s rest ih =>
      unfold massageList at h
      cases hm : massage s with
      | none => simp [hm] at h
      | some m =>
          cases hml : massageList rest with
          | none => simp [hm, hml] at h
          | some ms =>
              simp only [hm, hml, Option.some.injEq] at h
              subst h
              simp [ih hml]

theorem massageList_mem {l : List PigScript} {out : List MassagedScript}
    (h : massageList l = some out) {m : MassagedScript} (hm : m ∈ out) :
    ∃ s ∈ l, massage s = some m := by
  induction l generalizing out with
  | nil =>
      simp [massageList] at h
      subst h
      simp at hm
  | cons s rest ih =>
      unfold massageList at h
      cases hms : massage s with
      | none => simp [hms] at h
      | some m0 =>
          cases hml : massageList rest with
          | none => simp [hms, hml] at h
          | some ms =>
              simp only [hms, hml, Option.some.injEq] at h
              subst h
              rcases List.mem_cons.mp hm with he | hh
              · exact ⟨s, List.mem_cons_self s rest, by rw [hms, he]⟩
              · obtain ⟨t, ht, hmt⟩ := ih hml hh
                exact ⟨t, List.mem_cons_of_mem s ht, hmt⟩

theorem massageList_pairwise {l : List PigScript} {out : List MassagedScript}
    (h : massageList l = some out)
    (hp : l.Pairwise (fun s t => t.id < s.id)) :
    out.Pairwise (fun a b => b.id < a.id) := by
  induction l generalizing out with
  | nil =>
      simp [massageList] at h
      subst h
      exact List.Pairwise.nil
  | cons s rest ih =>
      obtain ⟨hhead, htail⟩ := List.pairwise_cons.mp hp
      unfold massageList at h
      cases hms : massage s with
      | none => simp [hms] at h
      | some m0 =>
          cases hml : massageList rest with
          | none => simp [hms, hml] at h
          | some ms =>
              simp only [hms, hml, Option.some.injEq] at h
              subst h
              refine List.pairwise_cons.mpr ⟨?_, ih hml htail⟩
              intro b hb
              obtain ⟨t, ht, hmt⟩ := massageList_mem hml hb
              rw [massage_id hmt, massage_id hms]
              exact hhead t ht

/-! ### Claim C4 -/

/-- C4: `get_scripts(user, max_count)` draws only on rows owned by the user
or the fixed shared sample-owner id 1100713, returns at most `max_count`
projections ordered by strictly decreasing id (ids being unique in the
table, as the ORM guarantees), each in the
`{id, name, script, parameters, resources, isDesign}` shape of a matching
row; when no row matches it returns the empty sequence without failing. -/
theorem get_scripts_spec (db : Db) (user : User) (max_count : Nat)
    (hids : (db.map PigScript.id).Nodup) :
    (∀ out, get_scripts db user max_count = some out →
      out.length ≤ max_count ∧
      out.Pairwise (fun a b => b.id < a.id) ∧
      ∀ m ∈ out, ∃ s ∈ db,
        (s.owner.pk = user.pk ∨ s.owner.pk = 1100713) ∧
          massage s = some m) ∧
    ((∀ s ∈ db, s.owner.pk ≠ user.pk ∧ s.owner.pk ≠ 1100713) →
      get_scripts db user max_count = some []) := by
  constructor
  · intro out hout
    unfold get_scripts at hout
    have hsub1 : List.Sublist (db.filter (ownerMatch user)) db :=
      List.filter_sublist db
    have hperm :
        (List.insertionSort byIdDesc (db.filter (ownerMatch user))).Perm
          (db.filter (ownerMatch user)) :=
      List.perm_insertionSort byIdDesc (db.filter (ownerMatch user))
    have htksub :
        List.Sublist
          ((List.insertionSort byIdDesc (db.filter (ownerMatch user))).take
            max_count)
          (List.insertionSort byIdDesc (db.filter (ownerMatch user))) :=
      List.take_sublist max_count _
    refine ⟨?_, ?_, ?_⟩
    · rw [massageList_length hout]
      exact List.length_take_le max_count _
    · have hsorted :
          (List.insertionSort byIdDesc
            (db.filter (ownerMatch user))).Pairwise byIdDesc :=
        List.sorted_insertionSort byIdDesc (db.filter (ownerMatch user))
      have hnd :
          (((List.insertionSort byIdDesc (db.filter (ownerMatch user))).take
              max_count).map PigScript.id).Nodup :=
        (((hperm.map PigScript.id).nodup_iff.mpr
            (hids.sublist (hsub1.map PigScript.id))).sublist
          (htksub.map PigScript.id))
      have hp_le := hsorted.sublist htksub
      have hp_ne : (((List.insertionSort byIdDesc
            (db.filter (ownerMatch user))).take max_count)).Pairwise
          (fun a b => a.id ≠ b.id) := List.pairwise_map.mp hnd
      refine massageList_pairwise hout ((hp_le.and hp_ne).imp ?_)
      intro a b hab
      exact Nat.lt_of_le_of_ne hab.1 (Ne.symm hab.2)
    · intro m hm
      obtain ⟨s, hs_tk, hms⟩ := massageList_mem hout hm
      have hs_l : s ∈ db.filter (ownerMatch user) :=
        hperm.mem_iff.mp (htksub.subset hs_tk)
      have hsf := List.mem_filter.mp hs_l
      refine ⟨s, hsf.1, ?_, hms⟩
      simpa [ownerMatch] using hsf.2
  · intro hnone
    have hfil : db.filter (ownerMatch user) = [] := by
      rw [List.filter_eq_nil_iff]
      intro s hs
      simp [ownerMatch, (hnone s hs).1, (hnone s hs).2]
    unfold get_scripts
    rw [hfil]
    simp [massageList]

/-- Witness for C4: a caller owning nothing in the sample table gets the
empty sequence. -/
theorem get_scripts_spec_witness :
    (db1.map PigScript.id).Nodup ∧
    (∀ s ∈ db1, s.owner.pk ≠ user2.pk ∧ s.owner.pk ≠ 1100713) ∧
    get_scripts db1 user2 3 = some [] :=
  ⟨by decide, by decide,
    (get_scripts_spec db1 user2 3 (by decide)).2 (by decide)⟩

/-! ### Claim C5 -/

/-- C5: `hdfs_link` is a total pure function over string-or-absent inputs:
absent and empty inputs pass through, an empty path component passes the URL
through, an absolute path component yields the filebrowser view link, a
relative one the home-relative view link — including the spec's concrete
examples. -/
theorem hdfs_link_spec :
    hdfs_link none = none ∧
    hdfs_link (some "") = some "" ∧
    hdfs_link (some "scheme://host/abs/path") =
      some "/filebrowser/view/abs/path" ∧
    hdfs_link (some "scheme://host/rel/path") =
      some "/filebrowser/view/rel/path" ∧
    hdfs_link (some "rel/path") =
      some "/filebrowser/home_relative_view/rel/path" ∧
    hdfs_link (some "scheme://host") = some "scheme://host" ∧
    ∀ url : String, url ≠ "" →
      ((urlsplit url).2.2 = "" → hdfs_link (some url) = some url) ∧
      ((urlsplit url).2.2 ≠ "" →
        startsWithSep (urlsplit url).2.2 = true →
        hdfs_link (some url) =
          some ("/filebrowser/view" ++ (urlsplit url).2.2)) ∧
      ((urlsplit url).2.2 ≠ "" →
        startsWithSep (urlsplit url).2.2 = false →
        hdfs_link (some url) =
          some ("/filebrowser/home_relative_view/" ++ (urlsplit url).2.2)) := by
  refine ⟨rfl, rfl, rfl, rfl, rfl, rfl, ?_⟩
  intro url hu
  refine ⟨fun hp => ?_, fun hp hs => ?_, fun hp hs => ?_⟩
  · simp [hdfs_link, hu, hp]
  · simp [hdfs_link, hu, hp, hs]
  · simp [hdfs_link, hu, hp, hs]

/-- Witness for C5: the general clauses applied at a concrete URL. -/
theorem hdfs_link_spec_witness :
    hdfs_link (some "hdfs://namenode:8020/user/x") =
      some "/filebrowser/view/user/x" :=
  (hdfs_link_spec.2.2.2.2.2.2 "hdfs://namenode:8020/user/x"
      (by decide)).2.1 (by decide) (by decide)

/-! ### Claim C6 -/

/-- Counterexample for C6 as stated: with `workflowRoot` present but bound to
the empty string, on a filesystem where no path exists, the claim demands
the absent value, yet the function returns the present empty string (the
falsy value short-circuits the existence check). -/
theorem get_workflow_output_counterexample :
    lookupStr [("workflowRoot", "")] "workflowRoot" = some "" ∧
    (fun _ : String => false) "" = false ∧
    get_workflow_output [("workflowRoot", "")] (fun _ => false) = some "" ∧
    get_workflow_output [("workflowRoot", "")] (fun _ => false) ≠ none :=
  ⟨rfl, rfl, rfl, fun h => Option.noConfusion h⟩

/-- C6 (amended): `get_workflow_output` returns the `workflowRoot` value when
the key is present and the value is non-empty and exists on the filesystem;
it returns the absent value when the key is missing or the value is
non-empty and fails the existence check; a present but empty (falsy) value
is returned as-is without the existence check; with a total `exists`
collaborator it never raises. -/
theorem get_workflow_output_spec (conf : List (String × String))
    (fs_exists : String → Bool) :
    (lookupStr conf "workflowRoot" = none →
      get_workflow_output conf fs_exists = none) ∧
    (∀ v, lookupStr conf "workflowRoot" = some v → v ≠ "" →
      (fs_exists v = true → get_workflow_output conf fs_exists = some v) ∧
      (fs_exists v = false → get_workflow_output conf fs_exists = none)) ∧
    (lookupStr conf "workflowRoot" = some "" →
      get_workflow_output conf fs_exists = some "") := by
  refine ⟨fun h => ?_, fun v hv hne => ⟨fun he => ?_, fun he => ?_⟩,
    fun h => ?_⟩ <;>
    simp [get_workflow_output, *]

/-- Witness for C6 (amended): a present, existing, non-empty root is
returned. -/
theorem get_workflow_output_spec_witness :
    get_workflow_output [("workflowRoot", "/out")] (fun _ => true) =
      some "/out" :=
  ((get_workflow_output_spec [("workflowRoot", "/out")] (fun _ => true)).2.1
    "/out" rfl (by decide)).1 rfl

/-! ### Claim C10 -/

/-- C10: when the configuration binds `workflowRoot` to the empty string,
`get_workflow_output` returns the present empty string, and the filesystem
handle is never consulted — the result is identical for every existence
oracle. -/
theorem get_workflow_output_empty_root (conf : List (String × String))
    (fs1 fs2 : String → Bool)
    (h : lookupStr conf "workflowRoot" = some "") :
    get_workflow_output conf fs1 = some "" ∧
    get_workflow_output conf fs1 = get_workflow_output conf fs2 := by
  constructor <;> simp [get_workflow_output, h]

/-- Witness for C10: concrete empty root, contradictory oracles, same
present result. -/
theorem get_workflow_output_empty_root_witness :
    get_workflow_output [("workflowRoot", "")] (fun _ => false) = some "" ∧
    get_workflow_output [("workflowRoot", "")] (fun _ => false) =
      get_workflow_output [("workflowRoot", "")] (fun _ => true) :=
  get_workflow_output_empty_root [("workflowRoot", "")]
    (fun _ => false) (fun _ => true) rfl

end Pig
